import Mathlib

/-!
Shallow embedding of the GitLab backend of a content-management client:
`src/backends/gitlab/API.js` (request primitive, read cache, persist/commit
workflow) and `src/backends/gitlab/implementation.js` (client construction,
bounded-concurrency batch fetch).  Definitions are translated from the
JavaScript source; theorems settle the specification claims about them.
-/

namespace Gitlab

/-! ## Path sanitization (`API.js`, `safeFilepath`)

The source uses `filepath.replace(/[^a-z0-9_\-@./]/gi, '')`: every character
that is not an ASCII letter (the `i` flag makes `a-z` case-insensitive),
digit, `_`, `-`, `@`, `.` or `/` is deleted; the rest are kept in order. -/

/-- A character kept by the regex `[^a-z0-9_\-@./]/gi` replacement:
ASCII letters (both cases, via the `i` flag), digits, `_`, `-`, `@`, `.`, `/`. -/
def allowedChar (c : Char) : Bool :=
  (decide ('a' ≤ c) && decide (c ≤ 'z')) ||
  (decide ('A' ≤ c) && decide (c ≤ 'Z')) ||
  (decide ('0' ≤ c) && decide (c ≤ '9')) ||
  c == '_' || c == '-' || c == '@' || c == '.' || c == '/'

/-- `safeFilepath` from `API.js`: delete every character outside the allowed
set, keeping the remaining characters in their original order. -/
def safeFilepath (filepath : String) : String :=
  String.mk (filepath.data.filter allowedChar)

/-- The character class `[A-Za-z0-9_\-@./]` as the claim writes it. -/
def claimAllowedChar (c : Char) : Bool :=
  (decide ('A' ≤ c) && decide (c ≤ 'Z')) ||
  (decide ('a' ≤ c) && decide (c ≤ 'z')) ||
  (decide ('0' ≤ c) && decide (c ≤ '9')) ||
  c == '_' || c == '-' || c == '@' || c == '.' || c == '/'

/-! ## JSON bodies, errors, responses (`API.js`, `request` / `parseJsonResponse`)

`valueObjects/errors.js` is not part of the sources; from its use
(`new APIError(message, status, source)`) and the spec's error payload shape
`\x7b message, status, source \x7d`, `APIError` is a record of those three
fields.  A parsed JSON body is modelled as a record exposing the `message`
property that the `catch` handler reads (absent properties are `none`),
together with the remaining fields. -/

/-- A parsed JSON object body.  Only the `message` property is ever read by
the code (`error.message` in the `catch` of `request`); the other fields are
carried so that distinct bodies stay distinct. -/
structure JsonObj where
  message : Option String
  fields : List (String × String)
deriving Repr, DecidableEq

/-- Modelled from the spec: `APIError` of `valueObjects/errors.js` (not under
`src/`) carries a message, the HTTP status when known, and a backend source
tag. -/
structure APIError where
  message : Option String
  status : Option Nat
  source : String
deriving Repr, DecidableEq

/-- A transport-level failure (DNS, timeout, reset): just an error message. -/
structure TransportError where
  message : Option String
deriving Repr, DecidableEq

/-- An HTTP response as `request` observes it: status, declared content type
(`none` when the header is absent), the parsed JSON body and the raw text
body. -/
structure HttpResponse where
  status : Nat
  contentType : Option String
  json : JsonObj
  text : String
deriving Repr, DecidableEq

/-- `response.ok` of the Fetch API: status in the range 200–299. -/
def respOk (r : HttpResponse) : Bool :=
  decide (200 ≤ r.status) && decide (r.status ≤ 299)

/-- The character list starts with `json`. -/
def startsWithJson : List Char → Bool
  | 'j' :: 's' :: 'o' :: 'n' :: _ => true
  | _ => false

/-- The character list contains `json` somewhere. -/
def containsJsonChars : List Char → Bool
  | [] => false
  | c :: rest => startsWithJson (c :: rest) || containsJsonChars rest

/-- `s` contains `"json"` as a substring: the test `contentType.match(/json/)`. -/
def containsJson (s : String) : Bool :=
  containsJsonChars s.data

/-- The branch guard `contentType && contentType.match(/json/)`. -/
def contentTypeIsJson (ct : Option String) : Bool :=
  match ct with
  | none => false
  | some s => containsJson s

/-- A successfully returned body: parsed JSON or raw text. -/
inductive Body where
  | json (j : JsonObj)
  | text (t : String)
deriving Repr, DecidableEq

/-- What a rejected `request` promise can carry.  The code only ever rejects
with an `APIError`; the `jsonPayload` variant exists so that the claim
"fails with the parsed JSON as the error payload" is statable. -/
inductive ErrPayload where
  | jsonPayload (j : JsonObj)
  | apiError (e : APIError)
deriving Repr, DecidableEq

/-- `request` from `API.js`, given the transport outcome of the dispatched
fetch.  On a response: if the declared content type mentions `json`, the body
is parsed (`parseJsonResponse`) and a non-ok status rejects with the parsed
JSON — which the trailing `catch` rewraps as
`new APIError(error.message, responseStatus, 'GitLab')`; an ok status returns
the parsed JSON.  A non-JSON content type returns the raw text whatever the
status.  A transport failure reaches the `catch` with `responseStatus` still
unset. -/
def request (outcome : Except TransportError HttpResponse) :
    Except ErrPayload Body :=
  match outcome with
  | .error te => .error (.apiError ⟨te.message, none, "GitLab"⟩)
  | .ok resp =>
    if contentTypeIsJson resp.contentType then
      if respOk resp then
        .ok (.json resp.json)
      else
        .error (.apiError ⟨resp.json.message, some resp.status, "GitLab"⟩)
    else
      .ok (.text resp.text)

/-! ## Read cache and `readFile` (`API.js`)

`LocalForage` (not under `src/`) is the persistent key→value store the spec's
Content Cache describes: `getItem` returns the stored value or null,
`setItem` stores a value under a key.  It is modelled as an association
list.  `readFile(path, sha, branch)` consults the key `"gh." ++ sha` when a
sha is given; the cached value is returned only when it is *truthy*
(`if (cached)`), otherwise a live blob request is issued and, when a sha was
given, its successful result is stored under the key. -/

/-- Modelled from the spec: the persistent key→blob store backing the cache
(`LocalForage`, not under `src/`): `getItem` yields the stored value or
nothing, `setItem` adds or overwrites a binding. -/
structure Cache where
  entries : List (String × Body)
deriving Repr, DecidableEq

/-- `LocalForage.getItem`: the value stored under `k`, if any. -/
def Cache.getItem (c : Cache) (k : String) : Option Body :=
  (c.entries.find? (fun e => e.1 == k)).map (fun e => e.2)

/-- `LocalForage.setItem`: bind `k` to `v` (overwriting any earlier binding). -/
def Cache.setItem (c : Cache) (k : String) (v : Body) : Cache :=
  ⟨(k, v) :: c.entries.filter (fun e => !(e.1 == k))⟩

/-- JavaScript truthiness of a value read back from the cache: a JSON object
is truthy; a string is truthy unless empty.  (`null`, the missing-key result,
is the `none` case of `getItem`.) -/
def truthy : Body → Bool
  | .json _ => true
  | .text t => !(t == "")

/-- A record of one live blob request issued by `readFile`:
`GET <repo>/blobs/<branch>?filepath=<path>`. -/
structure BlobRequest where
  filepath : String
  branch : String
deriving Repr, DecidableEq

deriving instance DecidableEq for Except

/-- The outcome of a `readFile` call: its result, the cache afterwards, and
the blob requests that went out on the network. -/
structure ReadOutcome where
  result : Except ErrPayload Body
  cacheAfter : Cache
  networkCalls : List BlobRequest
deriving Repr, DecidableEq

/-- `readFile` from `API.js`.  `live` is the outcome the network would give
the blob request (the composition through `request`).  With a sha whose cache
entry is truthy, the cached value is returned and nothing else happens.
Otherwise a live request is issued; on success the result is stored under
`"gh." ++ sha` exactly when a sha was given. -/
def readFile (cache : Cache) (live : Except ErrPayload Body)
    (path : String) (sha : Option String) (branch : String) : ReadOutcome :=
  match sha with
  | some h =>
    match cache.getItem ("gh." ++ h) with
    | some v =>
      if truthy v then
        { result := .ok v, cacheAfter := cache, networkCalls := [] }
      else
        readFileLive cache live path (some h) branch
    | none => readFileLive cache live path (some h) branch
  | none => readFileLive cache live path none branch
where
  /-- The live branch of `readFile`: request the blob, then
  `if (sha) LocalForage.setItem(...)` on success. -/
  readFileLive (cache : Cache) (live : Except ErrPayload Body)
      (path : String) (sha : Option String) (branch : String) : ReadOutcome :=
    match live with
    | .ok v =>
      { result := .ok v
        cacheAfter :=
          match sha with
          | some h => cache.setItem ("gh." ++ h) v
          | none => cache
        networkCalls := [⟨path, branch⟩] }
    | .error e =>
      { result := .error e, cacheAfter := cache, networkCalls := [⟨path, branch⟩] }

/-! ## Batch fetch (`implementation.js`, `fetchFiles`)

`fetchFiles` maps each `FileRef` to `api.readFile(file.path, file.sha)` under
a 10-permit semaphore and joins the promises with `Promise.all`.
`Promise.all` places each fulfilled value at its input index, and rejects
with the error of the first promise to *reject in completion order*.  The
completion order of the reads is a scheduling artefact, so the model takes it
as an explicit parameter (`order`, a list of indices); claims quantify over
it. -/

/-- A file reference handed to `fetchFiles`: path, optional content sha,
optional label. -/
structure FileRef where
  path : String
  sha : Option String
  label : Option String := none
deriving Repr, DecidableEq

/-- A successful per-file fetch result `\x7b file, data \x7d`. -/
structure FetchedFile where
  file : FileRef
  data : Body
deriving Repr, DecidableEq

/-- The error of the first read, in completion order `order`, that failed. -/
def firstErrorIn (rs : List (Except APIError Body)) (order : List Nat) :
    Option APIError :=
  order.findSome? (fun i =>
    match rs.get? i with
    | some (.error e) => some e
    | _ => none)

/-- All results, when every read succeeded. -/
def allOks (rs : List (Except APIError Body)) : Option (List Body) :=
  rs.mapM (fun r => r.toOption)

/-- `fetchFiles` from `implementation.js`, with the per-file read outcomes
abstracted into `readRes` (each file's `readFile` promise) and the completion
order into `order`.  `Promise.all` semantics: if some read rejects, the batch
rejects with the first rejection in completion order; otherwise it fulfills
with one `FetchedFile` per input, at the input's index. -/
def fetchFiles (readRes : FileRef → Except APIError Body) (order : List Nat)
    (files : List FileRef) : Except APIError (List FetchedFile) :=
  match firstErrorIn (files.map readRes) order with
  | some e => .error e
  | none =>
    match allOks (files.map readRes) with
    | some datas => .ok (List.zipWith (fun f d => ⟨f, d⟩) files datas)
    | none =>
      -- unreachable when `order` enumerates every index: a failed read that
      -- `allOks` sees is then also seen by `firstErrorIn`
      .error ⟨none, none, "GitLab"⟩

/-! ## Persist workflow (`API.js`, `persistFiles` / `getFile` / `commit`)

Per file (`mediaFiles.concat(entry)`), the code builds a `fileObj` whose
`file_path` is the *sanitized* path, fills in base64 `content` and
`encoding`, probes existence with `getFile(file.path)` — the *raw* path —,
sets `action` to `update` on probe success, to `create` on a 404 probe error,
rethrows any other probe error, and finally posts one commit whose `actions`
list is `[fileObj]`.  `getFile` and `commit` both go through `request`, so
every probe error is an `APIError`; the network side is abstracted into a
`PersistEnv` oracle.  Base64 encoding (`js-base64` / `AssetProxy.toBase64`,
neither under `src/`) is abstracted into the oracle's `enc` function. -/

/-- A file handed to `persistFiles`: the raw text branch uses `file.raw`, the
`AssetProxy` branch (`file instanceof AssetProxy`) uses the proxy's own
base64 output. -/
structure PFile where
  path : String
  raw : String
  isAsset : Bool
  assetB64 : String
deriving Repr, DecidableEq

/-- The single-action entry a commit carries:
`\x7b file_path, content, encoding, action \x7d`. -/
structure FileObj where
  file_path : String
  content : String
  encoding : String
  action : String
deriving Repr, DecidableEq

/-- A request issued during persist: the existence probe
`GET <repo>/files?file_path=..&ref=..` or the commit
`POST <repo>/commits` with `\x7b branchName, commitMessage, actions \x7d`. -/
inductive PersistReq where
  | getFileReq (file_path : String) (ref : String)
  | commitReq (branchName : String) (commitMessage : String)
      (actions : List FileObj)
deriving Repr, DecidableEq

/-- `r` is a commit request. -/
def isCommitReq : PersistReq → Bool
  | .commitReq _ _ _ => true
  | .getFileReq _ _ => false

/-- The network and encoding oracle for a persist call: the outcome of the
existence probe for each probed path, the receipt each commit gets back, and
the base64 encoder (`Base64.encode`, modelled from the spec: `js-base64` is
not under `src/`). -/
structure PersistEnv where
  probe : String → Except APIError JsonObj
  commitResp : List FileObj → Except APIError JsonObj
  enc : String → String

/-- The client configuration `API` is constructed with: branch and repo. -/
structure ApiConfig where
  branch : String
  repo : String
deriving Repr, DecidableEq

/-- The base64 content of a file: `file.toBase64()` for an `AssetProxy`,
`this.toBase64(file.raw)` (i.e. `Base64.encode`) otherwise. -/
def contentOf (env : PersistEnv) (file : PFile) : String :=
  if file.isAsset then file.assetB64 else env.enc file.raw

/-- The per-file pipeline of `persistFiles`: sanitize the path into
`fileObj.file_path`, encode the content, probe `getFile(file.path)` on the
configured branch, decide the action (update / create / abort), and issue the
commit.  Returns the requests that went out, in order, and the file's promise
outcome. -/
def persistOne (env : PersistEnv) (api : ApiConfig) (commitMessage : String)
    (file : PFile) : List PersistReq × Except APIError JsonObj :=
  let fileObj : FileObj :=
    { file_path := safeFilepath file.path
      content := contentOf env file
      encoding := "base64"
      action := "" }
  let probeReq := PersistReq.getFileReq file.path api.branch
  match env.probe file.path with
  | .ok _ =>
    let fo := { fileObj with action := "update" }
    (probeReq :: [PersistReq.commitReq api.branch commitMessage [fo]],
      env.commitResp [fo])
  | .error err =>
    if err.status == some 404 then
      let fo := { fileObj with action := "create" }
      (probeReq :: [PersistReq.commitReq api.branch commitMessage [fo]],
        env.commitResp [fo])
    else
      ([probeReq], .error err)

/-- `Promise.all` over already-settled results in list order: the first error
wins, otherwise the list of values. -/
def exceptAll : List (Except APIError JsonObj) →
    Except APIError (List JsonObj)
  | [] => .ok []
  | .ok a :: rest => (exceptAll rest).map (fun l => a :: l)
  | .error e :: _ => .error e

/-- `persistFiles(entry, mediaFiles, options)` from `API.js`: the files are
`mediaFiles.concat(entry)`; each runs `persistOne`; `Promise.all` joins the
per-file promises.  Returns the per-file (requests, outcome) pairs in file
order, and the aggregate outcome. -/
def persistFiles (env : PersistEnv) (api : ApiConfig) (entry : PFile)
    (mediaFiles : List PFile) (commitMessage : String) :
    List (List PersistReq × Except APIError JsonObj) ×
      Except APIError (List JsonObj) :=
  let files := mediaFiles ++ [entry]
  let perFile := files.map (persistOne env api commitMessage)
  (perFile, exceptAll (perFile.map (fun p => p.2)))

/-! ## Client construction (`implementation.js`, `GitLab.constructor`) -/

/-- Modelled from the spec: the `EDITORIAL_WORKFLOW` publish-mode constant of
`constants/publishModes` (not under `src/`), the unsupported editorial
workflow mode. -/
def EDITORIAL_WORKFLOW : String := "editorial_workflow"

/-- The configuration the constructor reads: `backend.repo`,
`backend.branch` and top-level `publish_mode`; `none` models an absent key
(`getIn` returning `undefined`, caught by `== null`). -/
structure BackendConfig where
  repo : Option String
  branch : Option String
  publish_mode : Option String
deriving Repr, DecidableEq

/-- The errors the constructor can throw synchronously. -/
inductive ConstructionError where
  | missingRepo (message : String)
  | editorialWorkflow (message : String) (retryable : Bool)
deriving Repr, DecidableEq

/-- The state of a successfully constructed `GitLab` client. -/
structure GitLabClient where
  repo : String
  branch : String
  token : String
deriving Repr, DecidableEq

/-- `GitLab.constructor(config, proxied)`: throw when `backend.repo` is
missing and the client is not proxied; then read repo (default `""`) and
branch (default `"master"`), clear the token, and throw when `publish_mode`
is the editorial workflow.  A pure function: no network request occurs. -/
def gitlabConstructor (config : BackendConfig) (proxied : Bool) :
    Except ConstructionError GitLabClient :=
  if !proxied && config.repo == none then
    .error (.missingRepo
      "The GitLab backend needs a \"repo\" in the backend configuration.")
  else
    let repo := config.repo.getD ""
    let branch := config.branch.getD "master"
    if config.publish_mode == some EDITORIAL_WORKFLOW then
      .error (.editorialWorkflow
        "The GitLab backend does not support the Editorial Workflow." false)
    else
      .ok { repo := repo, branch := branch, token := "" }

/-! ## Admission-control semaphore (`implementation.js`, `fetchFiles`)

`MAX_CONCURRENT_DOWNLOADS = 10` permits.  Modelled from the spec: the
`semaphore` npm package is not under `src/`; per the spec, the gate holds a
fixed number of permits, a read begins only after acquiring one
(`sem.take`), and releases it on completion — the source calls `sem.leave()`
on both the fulfilment path and the rejection path.  The model is a labelled
transition system over task identifiers; reads can finish in any order and
with any outcome. -/

def MAX_CONCURRENT_DOWNLOADS : Nat := 10

/-- How a read exits: fulfilment, a remote rejection, or a transport
failure.  Every kind releases the permit (`sem.leave()` in both the `then`
and the `catch` handler). -/
inductive ReadExit where
  | success
  | remoteError
  | transportError
deriving Repr, DecidableEq

/-- A state of the batch: queued task ids, ids holding a permit, and
completed ids with their exit kind. -/
structure SemState where
  capacity : Nat
  waiting : List Nat
  active : List Nat
  finished : List (Nat × ReadExit)
deriving Repr, DecidableEq

/-- The initial state of a batch of `n` reads under `cap` permits. -/
def semInit (cap n : Nat) : SemState :=
  { capacity := cap, waiting := List.range n, active := [], finished := [] }

/-- One scheduler step: `acquire` admits the head of the queue when a permit
is free (`sem.take` runs its callback); `complete` finishes an admitted read
with any exit kind, releasing its permit (`sem.leave`). -/
inductive SemStep : SemState → SemState → Prop
  | acquire (s : SemState) (i : Nat) (rest : List Nat)
      (hcap : s.active.length < s.capacity) (hq : s.waiting = i :: rest) :
      SemStep s { s with waiting := rest, active := i :: s.active }
  | complete (s : SemState) (i : Nat) (ex : ReadExit) (hmem : i ∈ s.active) :
      SemStep s
        { s with active := s.active.erase i
                 finished := (i, ex) :: s.finished }

/-- Reachability from the initial state. -/
def SemReachable (cap n : Nat) (s : SemState) : Prop :=
  Relation.ReflTransGen SemStep (semInit cap n) s

/-! ## Derived notions used by the theorems -/

/-- Number of commit requests in a request trace. -/
def commitCount (tr : List PersistReq) : Nat :=
  (tr.filter isCommitReq).length

/-- The probe outcome lets the per-file pipeline proceed to a commit:
success, or an error whose status is exactly 404. -/
def probeResolves (env : PersistEnv) (file : PFile) : Prop :=
  (∃ j, env.probe file.path = .ok j) ∨
  (∃ e, env.probe file.path = .error e ∧ e.status = some 404)

/-- The semaphore invariant: no more permits held than the capacity, and no
task id occurs twice across the queue, the permit holders and the finished
list. -/
def SemInv (s : SemState) : Prop :=
  s.active.length ≤ s.capacity ∧
  (s.waiting ++ s.active ++ s.finished.map Prod.fst).Nodup

/-! ## Theorems -/

theorem allowedChar_eq_claim (c : Char) : allowedChar c = claimAllowedChar c := by
  unfold allowedChar claimAllowedChar
  cases decide ('a' ≤ c) && decide (c ≤ 'z') <;>
    cases decide ('A' ≤ c) && decide (c ≤ 'Z') <;> simp

/-- C5: `safeFilepath` removes exactly the characters outside
`[A-Za-z0-9_\-@./]` and keeps every character inside the set in place and in
order; in particular `"dir/My File!.md"` sanitizes to `"dir/MyFile.md"`. -/
theorem safeFilepath_filters_disallowed (s : String) :
    (safeFilepath s).data = s.data.filter claimAllowedChar ∧
    safeFilepath "dir/My File!.md" = "dir/MyFile.md" := by
  constructor
  · show s.data.filter allowedChar = s.data.filter claimAllowedChar
    exact List.filter_congr (fun c _ => allowedChar_eq_claim c)
  · decide

/-- C6 (amended): on a JSON content type, `request` returns the parsed JSON
body when the status is ok, and fails with an `APIError` carrying the parsed
body's `message` and the response status when it is not (the parsed JSON
itself is not the rejection payload); on a non-JSON content type it returns
the raw text body whatever the status. -/
theorem request_dispatch (resp : HttpResponse) :
    (contentTypeIsJson resp.contentType = true →
      (respOk resp = true → request (.ok resp) = .ok (.json resp.json)) ∧
      (respOk resp = false →
        request (.ok resp) =
          .error (.apiError ⟨resp.json.message, some resp.status, "GitLab"⟩))) ∧
    (contentTypeIsJson resp.contentType = false →
      request (.ok resp) = .ok (.text resp.text)) := by
  refine ⟨fun hjson => ⟨fun hok => ?_, fun hbad => ?_⟩, fun htext => ?_⟩ <;>
    simp_all [request]

/-- The JSON error response used to separate the rejection payload from the
parsed body. -/
def respC6 : HttpResponse :=
  { status := 400
    contentType := some "application/json"
    json := { message := some "invalid", fields := [("error_code", "42")] }
    text := "" }

/-- C6 counterexample: for a JSON response with failure status, `request`
rejects with an `APIError` built from the body's `message` and the status —
not with the parsed JSON as the error payload. -/
theorem request_json_error_wrapped :
    request (.ok respC6) =
      .error (.apiError ⟨some "invalid", some 400, "GitLab"⟩) ∧
    request (.ok respC6) ≠ .error (.jsonPayload respC6.json) := by
  exact ⟨rfl, by decide⟩

/-- Responses exercising each branch of `request_dispatch`. -/
def respOkJson : HttpResponse :=
  { status := 200, contentType := some "application/json"
    json := { message := none, fields := [("id", "1")] }, text := "" }

def respBadJson : HttpResponse :=
  { status := 500, contentType := some "application/json"
    json := { message := some "boom", fields := [] }, text := "" }

def respPlainText : HttpResponse :=
  { status := 500, contentType := some "text/plain"
    json := { message := none, fields := [] }, text := "oops" }

theorem request_dispatch_witness :
    request (.ok respOkJson) = .ok (.json respOkJson.json) ∧
    request (.ok respBadJson) =
      .error (.apiError ⟨some "boom", some 500, "GitLab"⟩) ∧
    request (.ok respPlainText) = .ok (.text "oops") :=
  ⟨((request_dispatch respOkJson).1 (by decide)).1 (by decide),
   ((request_dispatch respBadJson).1 (by decide)).2 (by decide),
   (request_dispatch respPlainText).2 (by decide)⟩

/-- C9: construction without a repository identifier fails synchronously
(unless proxied), and construction with the editorial-workflow publish mode
fails synchronously; both are decided by the pure constructor, before any
network access.  A proxied client without a repo and without the editorial
workflow mode constructs successfully. -/
theorem gitlabConstructor_validation (config : BackendConfig) (proxied : Bool) :
    (proxied = false → config.repo = none →
      gitlabConstructor config proxied =
        .error (.missingRepo
          "The GitLab backend needs a \"repo\" in the backend configuration.")) ∧
    (config.publish_mode = some EDITORIAL_WORKFLOW →
      (gitlabConstructor config proxied).isOk = false) ∧
    (proxied = true → config.publish_mode ≠ some EDITORIAL_WORKFLOW →
      (gitlabConstructor config proxied).isOk = true) := by
  refine ⟨fun hp hr => ?_, fun hm => ?_, fun hp hm => ?_⟩
  · simp [gitlabConstructor, hp, hr]
  · unfold gitlabConstructor
    by_cases hpr : (!proxied && config.repo == none) = true
    · simp only [hpr, if_true]
      rfl
    · simp only [hpr, if_false, Bool.false_eq_true, ite_false, hm]
      simp only [EDITORIAL_WORKFLOW, beq_self_eq_true, if_true]
      rfl
  · unfold gitlabConstructor
    have hm2 : (config.publish_mode == some EDITORIAL_WORKFLOW) = false := by
      simpa using hm
    simp only [hp, Bool.not_true, Bool.false_and, Bool.false_eq_true, if_false,
      hm2, ite_false]
    rfl

def configNoRepo : BackendConfig :=
  { repo := none, branch := none, publish_mode := none }

def configEditorial : BackendConfig :=
  { repo := some "group/project", branch := some "main"
    publish_mode := some "editorial_workflow" }

theorem gitlabConstructor_validation_witness :
    gitlabConstructor configNoRepo false =
      .error (.missingRepo
        "The GitLab backend needs a \"repo\" in the backend configuration.") ∧
    (gitlabConstructor configEditorial false).isOk = false ∧
    (gitlabConstructor configNoRepo true).isOk = true :=
  ⟨(gitlabConstructor_validation configNoRepo false).1 rfl rfl,
   (gitlabConstructor_validation configEditorial false).2.1 rfl,
   (gitlabConstructor_validation configNoRepo true).2.2 rfl (by decide)⟩

/-- C4 (amended): with a hash whose cache entry is truthy (non-empty), the
cached value is returned with no network call and the cache unchanged; with a
missing or falsy entry, or with no hash, a live blob request for the path and
branch is issued and its result returned; a successful live result is stored
under the hash exactly when a hash was provided. -/
theorem readFile_cache_discipline (cache : Cache) (live : Except ErrPayload Body)
    (path branch h : String) :
    (∀ v, cache.getItem ("gh." ++ h) = some v → truthy v = true →
      readFile cache live path (some h) branch =
        { result := .ok v, cacheAfter := cache, networkCalls := [] }) ∧
    ((∀ v, cache.getItem ("gh." ++ h) = some v → truthy v = false) →
      readFile cache live path (some h) branch =
        { result := live
          cacheAfter :=
            match live with
            | .ok v => cache.setItem ("gh." ++ h) v
            | .error _ => cache
          networkCalls := [⟨path, branch⟩] }) ∧
    (readFile cache live path none branch =
      { result := live, cacheAfter := cache, networkCalls := [⟨path, branch⟩] }) := by
  refine ⟨fun v hv htr => ?_, fun hmiss => ?_, ?_⟩
  · simp [readFile, hv, htr]
  · unfold readFile
    cases hc : cache.getItem ("gh." ++ h) with
    | none =>
      simp only [hc]
      cases live <;> simp [readFile.readFileLive]
    | some v =>
      have hv := hmiss v hc
      simp only [hc, hv]
      cases live <;> simp [readFile.readFileLive, hv]
  · unfold readFile
    cases live <;> simp [readFile.readFileLive]

/-- The cache holding an *empty* blob under hash `h1`. -/
def cacheWithEmptyEntry : Cache := ⟨[("gh.h1", Body.text "")]⟩

/-- C4 counterexample: the cache holds an entry for hash `h1`, a hash is
provided, and yet `readFile` issues a live network request and returns the
live result instead of the cached bytes. -/
theorem readFile_empty_entry_refetches :
    cacheWithEmptyEntry.getItem "gh.h1" = some (Body.text "") ∧
    (readFile cacheWithEmptyEntry (.ok (Body.text "LIVE")) "a.md" (some "h1")
        "master").networkCalls = [⟨"a.md", "master"⟩] ∧
    (readFile cacheWithEmptyEntry (.ok (Body.text "LIVE")) "a.md" (some "h1")
        "master").result = .ok (Body.text "LIVE") :=
  ⟨rfl, rfl, rfl⟩

/-- A cache with a truthy entry under `h2`, for the witness. -/
def cacheWithEntry : Cache := ⟨[("gh.h2", Body.text "X")]⟩

theorem readFile_cache_discipline_witness :
    readFile cacheWithEntry (.ok (Body.text "LIVE")) "a.md" (some "h2")
        "master" =
      { result := .ok (Body.text "X"), cacheAfter := cacheWithEntry
        networkCalls := [] } ∧
    readFile cacheWithEntry (.ok (Body.text "Y")) "b.md" (some "h3")
        "master" =
      { result := .ok (Body.text "Y")
        cacheAfter := cacheWithEntry.setItem "gh.h3" (Body.text "Y")
        networkCalls := [⟨"b.md", "master"⟩] } ∧
    readFile cacheWithEntry (.ok (Body.text "Z")) "c.md" none "master" =
      { result := .ok (Body.text "Z"), cacheAfter := cacheWithEntry
        networkCalls := [⟨"c.md", "master"⟩] } :=
  ⟨(readFile_cache_discipline cacheWithEntry (.ok (Body.text "LIVE")) "a.md"
      "master" "h2").1 (Body.text "X") rfl rfl,
   (readFile_cache_discipline cacheWithEntry (.ok (Body.text "Y")) "b.md"
      "master" "h3").2.1 (fun v hv => by simp [cacheWithEntry, Cache.getItem] at hv),
   (readFile_cache_discipline cacheWithEntry (.ok (Body.text "Z")) "c.md"
      "master" "anything").2.2⟩

/-- C1: per file of a persist call, a successful metadata probe yields one
commit with action `update`; a probe failure with status 404 yields one
commit with action `create`; any other probe failure fails that file's
sequence with that error and issues no commit for it. -/
theorem persistFiles_action_determination (env : PersistEnv) (api : ApiConfig)
    (entry : PFile) (mediaFiles : List PFile) (cm : String) :
    (persistFiles env api entry mediaFiles cm).1 =
      (mediaFiles ++ [entry]).map (persistOne env api cm) ∧
    ∀ file ∈ mediaFiles ++ [entry],
      (∀ j, env.probe file.path = .ok j →
        (persistOne env api cm file).1.filter isCommitReq =
          [.commitReq api.branch cm
            [⟨safeFilepath file.path, contentOf env file, "base64", "update"⟩]]) ∧
      (∀ e, env.probe file.path = .error e → e.status = some 404 →
        (persistOne env api cm file).1.filter isCommitReq =
          [.commitReq api.branch cm
            [⟨safeFilepath file.path, contentOf env file, "base64", "create"⟩]]) ∧
      (∀ e, env.probe file.path = .error e → e.status ≠ some 404 →
        (persistOne env api cm file).2 = .error e ∧
        (persistOne env api cm file).1.filter isCommitReq = []) := by
  refine ⟨rfl, fun file _ =>
    ⟨fun j hj => ?_, fun e he h4 => ?_, fun e he h4 => ?_⟩⟩
  · simp [persistOne, hj, isCommitReq, List.filter]
  · simp [persistOne, he, h4, isCommitReq, List.filter]
  · have h4b : (e.status == some 404) = false := beq_eq_false_iff_ne.mpr h4
    constructor <;> simp [persistOne, he, h4b, isCommitReq, List.filter]

/-- An environment whose probes always succeed. -/
def envProbeOk : PersistEnv :=
  { probe := fun _ => .ok ⟨none, [("file_name", "a.md")]⟩
    commitResp := fun _ => .ok ⟨some "committed", []⟩
    enc := fun s => s }

/-- An environment whose probes always fail with 404. -/
def envProbe404 : PersistEnv :=
  { probe := fun _ => .error ⟨some "404 Not Found", some 404, "GitLab"⟩
    commitResp := fun _ => .ok ⟨some "committed", []⟩
    enc := fun s => s }

/-- An environment whose probes always fail with 500. -/
def envProbe500 : PersistEnv :=
  { probe := fun _ => .error ⟨some "Internal Server Error", some 500, "GitLab"⟩
    commitResp := fun _ => .ok ⟨some "committed", []⟩
    enc := fun s => s }

def apiMaster : ApiConfig := { branch := "master", repo := "group/project" }

def fileA : PFile := { path := "a.md", raw := "hello", isAsset := false, assetB64 := "" }

theorem persistFiles_action_determination_witness :
    (persistOne envProbeOk apiMaster "msg" fileA).1.filter isCommitReq =
      [.commitReq apiMaster.branch "msg"
        [⟨safeFilepath fileA.path, contentOf envProbeOk fileA, "base64", "update"⟩]] ∧
    (persistOne envProbe404 apiMaster "msg" fileA).1.filter isCommitReq =
      [.commitReq apiMaster.branch "msg"
        [⟨safeFilepath fileA.path, contentOf envProbe404 fileA, "base64", "create"⟩]] ∧
    (persistOne envProbe500 apiMaster "msg" fileA).2 =
      .error ⟨some "Internal Server Error", some 500, "GitLab"⟩ ∧
    (persistOne envProbe500 apiMaster "msg" fileA).1.filter isCommitReq = [] :=
  ⟨(((persistFiles_action_determination envProbeOk apiMaster fileA [] "msg").2
      fileA (by simp)).1 ⟨none, [("file_name", "a.md")]⟩ rfl),
   (((persistFiles_action_determination envProbe404 apiMaster fileA [] "msg").2
      fileA (by simp)).2.1 ⟨some "404 Not Found", some 404, "GitLab"⟩ rfl rfl),
   (((persistFiles_action_determination envProbe500 apiMaster fileA [] "msg").2
      fileA (by simp)).2.2 ⟨some "Internal Server Error", some 500, "GitLab"⟩
      rfl (by decide)).1,
   (((persistFiles_action_determination envProbe500 apiMaster fileA [] "msg").2
      fileA (by simp)).2.2 ⟨some "Internal Server Error", some 500, "GitLab"⟩
      rfl (by decide)).2⟩

/-- C2 (amended): the existence probe of each persisted file is performed
against the file's *original* path — not the sanitized one — with the target
branch as `ref`; the sanitized path appears only as the `file_path` of the
commit actions. -/
theorem persistFiles_probe_raw_path (env : PersistEnv) (api : ApiConfig)
    (entry : PFile) (mediaFiles : List PFile) (cm : String) :
    (persistFiles env api entry mediaFiles cm).1 =
      (mediaFiles ++ [entry]).map (persistOne env api cm) ∧
    ∀ file ∈ mediaFiles ++ [entry],
      (∃ rest, (persistOne env api cm file).1 =
        PersistReq.getFileReq file.path api.branch :: rest) ∧
      (∀ bn m acts, PersistReq.commitReq bn m acts ∈ (persistOne env api cm file).1 →
        ∀ fo ∈ acts, fo.file_path = safeFilepath file.path) := by
  refine ⟨rfl, fun file _ => ⟨?_, ?_⟩⟩
  · unfold persistOne
    cases hp : env.probe file.path with
    | ok j => exact ⟨_, rfl⟩
    | error e =>
      by_cases h4 : (e.status == some 404) = true
      · simp only [h4, if_true]
        exact ⟨_, rfl⟩
      · simp only [eq_false_of_ne_true h4, Bool.false_eq_true, if_false]
        exact ⟨_, rfl⟩
  · intro bn m acts hmem fo hfo
    unfold persistOne at hmem
    cases hp : env.probe file.path with
    | ok j =>
      rw [hp] at hmem
      simp at hmem
      rcases hmem with ⟨hbn, hm, hacts⟩
      subst hacts
      simp at hfo
      subst hfo
      rfl
    | error e =>
      rw [hp] at hmem
      by_cases h4 : (e.status == some 404) = true
      · simp [h4] at hmem
        rcases hmem with ⟨hbn, hm, hacts⟩
        subst hacts
        simp at hfo
        subst hfo
        rfl
      · simp [eq_false_of_ne_true h4] at hmem

def fileSpaced : PFile :=
  { path := "dir/My File!.md", raw := "x", isAsset := false, assetB64 := "" }

/-- C2 counterexample: with file path `"dir/My File!.md"`, the probe request
carries the raw path `"dir/My File!.md"` while the commit's `file_path` is
the sanitized `"dir/MyFile.md"` — the probe is not performed against the
sanitized path. -/
theorem persist_probe_unsanitized :
    ((persistFiles envProbeOk apiMaster fileSpaced [] "msg").1.map
        (fun p => p.1)) =
      [[.getFileReq "dir/My File!.md" "master",
        .commitReq "master" "msg" [⟨"dir/MyFile.md", "x", "base64", "update"⟩]]] ∧
    safeFilepath "dir/My File!.md" ≠ "dir/My File!.md" :=
  ⟨rfl, by decide⟩

theorem persistFiles_probe_raw_path_witness :
    (∃ rest, (persistOne envProbeOk apiMaster "msg" fileSpaced).1 =
      PersistReq.getFileReq fileSpaced.path apiMaster.branch :: rest) ∧
    (∀ fo ∈ [(⟨"dir/MyFile.md", "x", "base64", "update"⟩ : FileObj)],
      FileObj.file_path fo = safeFilepath fileSpaced.path) :=
  ⟨((persistFiles_probe_raw_path envProbeOk apiMaster fileSpaced [] "msg").2
      fileSpaced (by simp)).1,
   ((persistFiles_probe_raw_path envProbeOk apiMaster fileSpaced [] "msg").2
      fileSpaced (by simp)).2 "master" "msg"
      [⟨"dir/MyFile.md", "x", "base64", "update"⟩] (by decide)⟩

theorem sum_map_of_all_one {α : Type} (l : List α) (f : α → Nat)
    (h : ∀ a ∈ l, f a = 1) : (l.map f).sum = l.length := by
  induction l with
  | nil => simp
  | cons a t ih =>
    simp only [List.map_cons, List.sum_cons, List.length_cons,
      h a (by simp)]
    rw [ih (fun x hx => h x (by simp [hx]))]
    omega

theorem commitCount_one_of_resolves (env : PersistEnv) (api : ApiConfig)
    (cm : String) (file : PFile) (h : probeResolves env file) :
    commitCount (persistOne env api cm file).1 = 1 := by
  rcases h with ⟨j, hj⟩ | ⟨e, he, h4⟩
  · simp [commitCount, persistOne, hj, isCommitReq, List.filter]
  · simp [commitCount, persistOne, he, h4, isCommitReq, List.filter]

/-- C7: the files of a persist call are processed in the order
`mediaFiles ++ [entry]` (auxiliary files before the primary one); every
commit request issued carries exactly one action; and when every file's probe
resolves (success or 404), persisting `N = mediaFiles.length + 1` files
issues exactly `N` commit requests, one per file. -/
theorem persistFiles_one_commit_per_file (env : PersistEnv) (api : ApiConfig)
    (entry : PFile) (mediaFiles : List PFile) (cm : String) :
    (persistFiles env api entry mediaFiles cm).1 =
      (mediaFiles ++ [entry]).map (persistOne env api cm) ∧
    (∀ file r, r ∈ (persistOne env api cm file).1 → isCommitReq r = true →
      ∃ fo, r = .commitReq api.branch cm [fo]) ∧
    ((∀ file ∈ mediaFiles ++ [entry], probeResolves env file) →
      (((persistFiles env api entry mediaFiles cm).1.map
        (fun p => commitCount p.1)).sum = mediaFiles.length + 1)) := by
  refine ⟨rfl, fun file r hr hc => ?_, fun hres => ?_⟩
  · revert hr
    unfold persistOne
    cases hp : env.probe file.path with
    | ok j =>
      intro hr
      simp at hr
      rcases hr with hr | hr
      · rw [hr] at hc
        exact absurd hc (by simp [isCommitReq])
      · exact ⟨_, hr⟩
    | error e =>
      by_cases h4 : (e.status == some 404) = true
      · simp only [h4, if_true]
        intro hr
        simp at hr
        rcases hr with hr | hr
        · rw [hr] at hc
          exact absurd hc (by simp [isCommitReq])
        · exact ⟨_, hr⟩
      · simp only [eq_false_of_ne_true h4, Bool.false_eq_true, if_false]
        intro hr
        simp at hr
        rw [hr] at hc
        exact absurd hc (by simp [isCommitReq])
  · show (((mediaFiles ++ [entry]).map (persistOne env api cm)).map
      (fun p => commitCount p.1)).sum = mediaFiles.length + 1
    rw [List.map_map]
    have := sum_map_of_all_one (mediaFiles ++ [entry])
      (fun f => commitCount (persistOne env api cm f).1)
      (fun f hf => commitCount_one_of_resolves env api cm f (hres f hf))
    simpa using this

def fileB : PFile := { path := "b.png", raw := "", isAsset := true, assetB64 := "QUJD" }

theorem persistFiles_one_commit_per_file_witness :
    (((persistFiles envProbeOk apiMaster fileA [fileB] "msg").1.map
      (fun p => commitCount p.1)).sum = 2) ∧
    (∃ fo, PersistReq.commitReq apiMaster.branch "msg"
        [⟨safeFilepath fileB.path, contentOf envProbeOk fileB, "base64", "update"⟩] =
      PersistReq.commitReq apiMaster.branch "msg" [fo]) :=
  ⟨(persistFiles_one_commit_per_file envProbeOk apiMaster fileA [fileB] "msg").2.2
      (fun f _ => Or.inl ⟨⟨none, [("file_name", "a.md")]⟩, rfl⟩),
   (persistFiles_one_commit_per_file envProbeOk apiMaster fileA [fileB] "msg").2.1
      fileB (PersistReq.commitReq apiMaster.branch "msg"
        [⟨safeFilepath fileB.path, contentOf envProbeOk fileB, "base64", "update"⟩])
      (by decide) (by decide)⟩

theorem firstErrorIn_eq_none_of_all_ok (readRes : FileRef → Except APIError Body)
    (order : List Nat) (files : List FileRef) (data : FileRef → Body)
    (h : ∀ f ∈ files, readRes f = .ok (data f)) :
    firstErrorIn (files.map readRes) order = none := by
  apply List.findSome?_eq_none_iff.mpr
  intro i _
  cases hg : (files.map readRes).get? i with
  | none => rfl
  | some r =>
    have hr : r ∈ files.map readRes := List.get?_mem hg
    rcases List.mem_map.mp hr with ⟨f, hf, hfr⟩
    rw [← hfr, h f hf]

theorem allOks_map_of_all_ok (readRes : FileRef → Except APIError Body)
    (files : List FileRef) (data : FileRef → Body)
    (h : ∀ f ∈ files, readRes f = .ok (data f)) :
    allOks (files.map readRes) = some (files.map data) := by
  induction files with
  | nil => rfl
  | cons a t ih =>
    have ha := h a (by simp)
    unfold allOks at *
    simp only [List.map_cons, List.mapM_cons, ha]
    rw [ih (fun f hf => h f (by simp [hf]))]
    rfl

theorem firstErrorIn_isSome_of_mem (rs : List (Except APIError Body))
    (order : List Nat) (i : Nat) (e : APIError) (hi : i ∈ order)
    (hg : rs.get? i = some (.error e)) :
    ∃ e2, firstErrorIn rs order = some e2 := by
  cases h : firstErrorIn rs order with
  | some e2 => exact ⟨e2, rfl⟩
  | none =>
    have := List.findSome?_eq_none_iff.mp h i hi
    rw [hg] at this
    exact absurd this (by simp)

theorem firstErrorIn_mem (rs : List (Except APIError Body)) (order : List Nat)
    (e : APIError) (h : firstErrorIn rs order = some e) :
    Except.error e ∈ rs := by
  rcases List.exists_of_findSome?_eq_some h with ⟨i, _, hi⟩
  cases hg : rs.get? i with
  | none => rw [hg] at hi; cases hi
  | some r =>
    rw [hg] at hi
    cases r with
    | ok v => cases hi
    | error e2 =>
      have : e2 = e := by simpa using hi
      subst this
      exact List.get?_mem hg

/-- C10: when every read succeeds, `fetchFiles` returns, for any completion
order of the reads, exactly one `FetchedFile` per input `FileRef`, with the
i-th output built from the i-th input — the result order equals the input
order. -/
theorem fetchFiles_preserves_input_order
    (readRes : FileRef → Except APIError Body) (order : List Nat)
    (files : List FileRef) (data : FileRef → Body)
    (h : ∀ f ∈ files, readRes f = .ok (data f)) :
    fetchFiles readRes order files =
      .ok (files.map (fun f => ⟨f, data f⟩)) := by
  unfold fetchFiles
  rw [firstErrorIn_eq_none_of_all_ok readRes order files data h,
    allOks_map_of_all_ok readRes files data h]
  show Except.ok
      (List.zipWith (fun f d => (⟨f, d⟩ : FetchedFile)) files (files.map data)) = _
  rw [List.zipWith_map_right, List.zipWith_same]

/-- The per-file read outcomes used in the batch-fetch witnesses. -/
def readResW : FileRef → Except APIError Body := fun f =>
  if f.path == "bad.md" then
    .error ⟨some "404 Tree Not Found", some 404, "GitLab"⟩
  else
    .ok (.text "X")

def refGood : FileRef := { path := "a.md", sha := some "h1" }

def refGood2 : FileRef := { path := "c.md", sha := none }

def refBad : FileRef := { path := "bad.md", sha := none }

theorem fetchFiles_preserves_input_order_witness :
    fetchFiles readResW [1, 0] [refGood, refGood2] =
      .ok [⟨refGood, .text "X"⟩, ⟨refGood2, .text "X"⟩] :=
  fetchFiles_preserves_input_order readResW [1, 0] [refGood, refGood2]
    (fun _ => .text "X") (by decide)

/-- C3: if some file's read fails, `fetchFiles` fails — with the error of one
of the failing reads — and returns no partial list of successes; when every
failing read carries one and the same error (in particular when exactly one
read fails), the batch fails with exactly that error, for every completion
order. -/
theorem fetchFiles_all_or_nothing (readRes : FileRef → Except APIError Body)
    (order : List Nat) (files : List FileRef)
    (hperm : List.Perm order (List.range files.length)) :
    ((∃ f ∈ files, (readRes f).isOk = false) →
      ∃ e, fetchFiles readRes order files = .error e ∧
        ∃ f ∈ files, readRes f = .error e) ∧
    (∀ e0, (∃ f ∈ files, readRes f = .error e0) →
      (∀ f ∈ files, readRes f = .error e0 ∨ (readRes f).isOk = true) →
      fetchFiles readRes order files = .error e0) := by
  have main : (∃ f ∈ files, (readRes f).isOk = false) →
      ∃ e, fetchFiles readRes order files = .error e ∧
        ∃ f ∈ files, readRes f = .error e := by
    rintro ⟨f, hf, hbad⟩
    obtain ⟨e, he⟩ : ∃ e, readRes f = .error e := by
      cases hr : readRes f with
      | ok v => rw [hr] at hbad; cases hbad
      | error e => exact ⟨e, rfl⟩
    rcases List.mem_iff_get?.mp hf with ⟨i, hi⟩
    have hlen : i < files.length := by
      rcases List.get?_eq_some.mp hi with ⟨hl, _⟩
      exact hl
    have hio : i ∈ order := hperm.mem_iff.mpr (List.mem_range.mpr hlen)
    have hmg : (files.map readRes).get? i = some (.error e) := by
      rw [List.get?_map, hi]
      simp [he]
    rcases firstErrorIn_isSome_of_mem (files.map readRes) order i e hio hmg
      with ⟨e2, he2⟩
    refine ⟨e2, ?_, ?_⟩
    · unfold fetchFiles
      rw [he2]
    · have hmem := firstErrorIn_mem (files.map readRes) order e2 he2
      rcases List.mem_map.mp hmem with ⟨f2, hf2, hfr2⟩
      exact ⟨f2, hf2, hfr2⟩
  refine ⟨main, fun e0 hex huniq => ?_⟩
  rcases hex with ⟨f0, hf0, he0⟩
  rcases main ⟨f0, hf0, by rw [he0]; rfl⟩ with ⟨e, hfe, f2, hf2, hr2⟩
  have : e = e0 := by
    rcases huniq f2 hf2 with h1 | h1
    · rw [hr2] at h1
      exact (Except.error.injEq _ _).mp h1
    · rw [hr2] at h1
      cases h1
  rw [← this]
  exact hfe

theorem fetchFiles_all_or_nothing_witness :
    fetchFiles readResW [1, 0] [refGood, refBad] =
      .error ⟨some "404 Tree Not Found", some 404, "GitLab"⟩ :=
  (fetchFiles_all_or_nothing readResW [1, 0] [refGood, refBad]
      (by decide)).2
    ⟨some "404 Tree Not Found", some 404, "GitLab"⟩
    ⟨refBad, by decide, rfl⟩ (by decide)

theorem semInv_preserved (s s2 : SemState) (hstep : SemStep s s2)
    (hinv : SemInv s) : SemInv s2 := by
  rcases hinv with ⟨hlen, hnodup⟩
  cases hstep with
  | acquire i rest hcap hq =>
    refine ⟨by simpa using hcap, ?_⟩
    rw [hq] at hnodup
    have hperm : List.Perm
        ((rest ++ i :: s.active) ++ s.finished.map Prod.fst)
        (((i :: rest) ++ s.active) ++ s.finished.map Prod.fst) :=
      List.Perm.append_right (s.finished.map Prod.fst) List.perm_middle
    exact hperm.nodup_iff.mpr hnodup
  | complete i ex hmem =>
    refine ⟨le_trans (List.Sublist.length_le (List.erase_sublist i s.active)) hlen, ?_⟩
    have h1 : List.Perm
        ((s.waiting ++ s.active.erase i) ++ (i :: s.finished.map Prod.fst))
        (i :: ((s.waiting ++ s.active.erase i) ++ s.finished.map Prod.fst)) :=
      List.perm_middle
    have h2 : List.Perm
        ((s.waiting ++ s.active) ++ s.finished.map Prod.fst)
        ((s.waiting ++ i :: s.active.erase i) ++ s.finished.map Prod.fst) :=
      List.Perm.append_right (s.finished.map Prod.fst)
        (List.Perm.append_left s.waiting (List.perm_cons_erase hmem))
    have h3 : List.Perm
        ((s.waiting ++ i :: s.active.erase i) ++ s.finished.map Prod.fst)
        (i :: ((s.waiting ++ s.active.erase i) ++ s.finished.map Prod.fst)) :=
      List.Perm.append_right (s.finished.map Prod.fst) List.perm_middle
    have hfin : List.Perm
        ((s.waiting ++ s.active.erase i) ++ (i :: s.finished.map Prod.fst))
        ((s.waiting ++ s.active) ++ s.finished.map Prod.fst) :=
      h1.trans (h2.trans h3).symm
    exact hfin.nodup_iff.mpr hnodup

theorem semInv_reachable (cap n : Nat) (s : SemState)
    (hr : Relation.ReflTransGen SemStep (semInit cap n) s) :
    SemInv s ∧ s.capacity = cap := by
  induction hr with
  | refl =>
    refine ⟨⟨by simp [semInit], ?_⟩, rfl⟩
    simp only [semInit, List.append_nil, List.map_nil]
    exact List.nodup_range n
  | tail hsteps hstep ih =>
    refine ⟨semInv_preserved _ _ hstep ih.1, ?_⟩
    rw [← ih.2]
    cases hstep <;> rfl

/-- C8: in every schedule of a batch of reads admitted by the 10-permit
gate (`MAX_CONCURRENT_DOWNLOADS`), at no reachable state do more than 10
reads hold an unreleased permit; every completed read — whatever its exit
kind: success, remote error or transport error — no longer holds a permit;
and a read completing from a reachable state relinquishes its own permit
(`erase` removes it from the holders). -/
theorem fetchFiles_bounded_concurrency (n : Nat) (s : SemState)
    (hr : SemReachable MAX_CONCURRENT_DOWNLOADS n s) :
    s.active.length ≤ MAX_CONCURRENT_DOWNLOADS ∧
    (∀ p ∈ s.finished, p.1 ∉ s.active) ∧
    (∀ i ∈ s.active, i ∉ s.active.erase i) := by
  rcases semInv_reachable MAX_CONCURRENT_DOWNLOADS n s hr with ⟨⟨hlen, hnodup⟩, hcap⟩
  refine ⟨hcap ▸ hlen, fun p hp hmem => ?_, fun i hi => ?_⟩
  · have hdisj : List.Disjoint (s.waiting ++ s.active) (s.finished.map Prod.fst) :=
      List.disjoint_of_nodup_append hnodup
    exact hdisj (List.mem_append_right s.waiting hmem)
      (List.mem_map_of_mem Prod.fst hp)
  · have hact : s.active.Nodup :=
      ((hnodup.of_append_left).of_append_right)
    exact hact.not_mem_erase

/-- The state of a 3-read batch after the first read acquired its permit. -/
def semAfterOne : SemState :=
  { capacity := MAX_CONCURRENT_DOWNLOADS, waiting := [1, 2], active := [0]
    finished := [] }

theorem fetchFiles_bounded_concurrency_witness :
    semAfterOne.active.length ≤ MAX_CONCURRENT_DOWNLOADS ∧
    (∀ p ∈ semAfterOne.finished, p.1 ∉ semAfterOne.active) ∧
    (∀ i ∈ semAfterOne.active, i ∉ semAfterOne.active.erase i) :=
  fetchFiles_bounded_concurrency 3 semAfterOne
    (Relation.ReflTransGen.single
      (SemStep.acquire (semInit MAX_CONCURRENT_DOWNLOADS 3) 0 [1, 2]
        (by decide) (by decide)))

end Gitlab
